import Mathlib

/-!
# Verification of the lua-bundler dependency-resolution core

This file is a shallow embedding, in Lean 4, of the dependency-resolution
engine of the `lua-bundler` repository (package `internal/bundler`,
file `processor.go`, together with the `Bundler` construction in
`bundler.go`), and proofs of the specification claims about it.

Source text is modelled as `List Char`.  The three Go regular expressions
used by `processFile` are embedded as deterministic scanners: in each of
the three patterns every quantified sub-expression (`\s*`, `\w+`, `[^)]*`,
`[^'"]+`, `[a-zA-Z0-9_.]*`) is followed by a token that is disjoint from
the repeated character class, so Go's leftmost-first match is computed by
taking each repetition maximally and scanning start positions left to
right.

File-system reads, HTTP transport, the fetch cache and the obfuscator are
modelled as explicit environments; `processFile`'s recursion is made
total with a fuel parameter (recursion in the Go code is bounded only by
the module table, which grows on every recursive call).
-/

namespace LuaBundler

/-- Source text: a Go string, as a list of characters. -/
abbrev Str := List Char

/-! ## Character classes of the Go regexp patterns -/

/-- Go regexp `\w` = `[0-9A-Za-z_]`. -/
def isWordChar (c : Char) : Bool :=
  (('a' ≤ c && c ≤ 'z') || ('A' ≤ c && c ≤ 'Z') || ('0' ≤ c && c ≤ '9') || c = '_')

/-- Go regexp `\s` = `[\t\n\f\r ]`. -/
def isSpaceChar (c : Char) : Bool :=
  (c = ' ' || c = '\t' || c = '\n' || c = '\x0c' || c = '\r')

/-- The two quote characters of the class `['"]`. -/
def isQuoteChar (c : Char) : Bool :=
  (c = '\'' || c = '"')

/-- First character of the unquoted alternative of the require pattern:
`[a-zA-Z_]`. -/
def isIdentStart (c : Char) : Bool :=
  (('a' ≤ c && c ≤ 'z') || ('A' ≤ c && c ≤ 'Z') || c = '_')

/-- Continuation characters of the unquoted alternative: `[a-zA-Z0-9_.]`. -/
def isIdentChar (c : Char) : Bool :=
  (('a' ≤ c && c ≤ 'z') || ('A' ≤ c && c ≤ 'Z') || ('0' ≤ c && c ≤ '9')
    || c = '_' || c = '.')

/-! ## Scanner building blocks -/

/-- Consume the literal `lit` from the front of `cs`; `none` if absent. -/
def dropLit : Str → Str → Option Str
  | [], cs => some cs
  | _ :: _, [] => none
  | l :: ls, c :: cs => if c = l then dropLit ls cs else none

/-- Consume a maximal run of regexp whitespace (`\s*`). -/
def dropSpaces : Str → Str
  | [] => []
  | c :: cs => if isSpaceChar c then dropSpaces cs else c :: cs

/-- Split off a maximal run of non-quote characters (`[^'"]*`). -/
def takeNonQuote : Str → Str × Str
  | [] => ([], [])
  | c :: cs =>
    if isQuoteChar c then ([], c :: cs)
    else
      let p := takeNonQuote cs
      (c :: p.1, p.2)

/-- Split off a maximal run of identifier characters (`[a-zA-Z0-9_.]*`). -/
def takeIdentChars : Str → Str × Str
  | [] => ([], [])
  | c :: cs =>
    if isIdentChar c then
      let p := takeIdentChars cs
      (c :: p.1, p.2)
    else ([], c :: cs)

/-- Split off a maximal run of word characters (`\w*`). -/
def takeWordChars : Str → Str × Str
  | [] => ([], [])
  | c :: cs =>
    if isWordChar c then
      let p := takeWordChars cs
      (c :: p.1, p.2)
    else ([], c :: cs)

/-! ## The fetch-and-execute pattern

Go: `loadstring\s*\(\s*game:HttpGet\s*\(\s*['"]([^'"]+)['"]\s*\)\s*\)\s*\(\s*\)`
(`httpGetRegex` in `processor.go`).  `matchHttpGetAt` matches the pattern
anchored at the head of its argument and returns the text captured by
`([^'"]+)`. -/

/-- Match the fetch-and-execute pattern at the head of `cs`, returning the
captured URL. -/
def matchHttpGetAt (cs : Str) : Option Str := do
  let cs ← dropLit "loadstring".data cs
  let cs := dropSpaces cs
  let cs ← dropLit "(".data cs
  let cs := dropSpaces cs
  let cs ← dropLit "game:HttpGet".data cs
  let cs := dropSpaces cs
  let cs ← dropLit "(".data cs
  let cs := dropSpaces cs
  match cs with
  | q :: cs =>
    if isQuoteChar q then
      let p := takeNonQuote cs
      if p.1.isEmpty then none
      else
        match p.2 with
        | q2 :: cs =>
          if isQuoteChar q2 then
            let cs := dropSpaces cs
            let cs ← dropLit ")".data cs
            let cs := dropSpaces cs
            let cs ← dropLit ")".data cs
            let cs := dropSpaces cs
            let cs ← dropLit "(".data cs
            let cs := dropSpaces cs
            let _ ← dropLit ")".data cs
            some p.1
          else none
        | [] => none
    else none
  | [] => none

/-- `FindStringSubmatch` of `httpGetRegex` on one line: leftmost match,
returning the captured URL (`matches[1]`). -/
def findHttpGet : Str → Option Str
  | [] => none
  | c :: cs =>
    match matchHttpGetAt (c :: cs) with
    | some url => some url
    | none => findHttpGet cs

/-! ## The require pattern

Go: `require\s*\(\s*(?:['"]([^'"]+)['"]|([a-zA-Z_][a-zA-Z0-9_.]*))\s*\)`
(`requireRegex` in `processor.go`).  The scanner returns the module path
selected exactly as `processFile` does: the quoted capture `matches[1]`
when the first alternative fired, otherwise the bare-identifier capture
`matches[2]`.  The two alternatives are distinguished by the first
character (a quote is not in `[a-zA-Z_]`), so no backtracking between
them can occur. -/

/-- Match the require pattern at the head of `cs`, returning the extracted
module path literal. -/
def matchRequireAt (cs : Str) : Option Str := do
  let cs ← dropLit "require".data cs
  let cs := dropSpaces cs
  let cs ← dropLit "(".data cs
  let cs := dropSpaces cs
  match cs with
  | c :: rest =>
    if isQuoteChar c then
      let p := takeNonQuote rest
      if p.1.isEmpty then none
      else
        match p.2 with
        | q2 :: rest2 =>
          if isQuoteChar q2 then
            let rest3 := dropSpaces rest2
            let _ ← dropLit ")".data rest3
            some p.1
          else none
        | [] => none
    else if isIdentStart c then
      let p := takeIdentChars rest
      let rest2 := dropSpaces p.2
      let _ ← dropLit ")".data rest2
      some (c :: p.1)
    else none
  | [] => none

/-- `FindStringSubmatch` of `requireRegex` on one line: leftmost match,
returning the extracted module path. -/
def findRequire : Str → Option Str
  | [] => none
  | c :: cs =>
    match matchRequireAt (c :: cs) with
    | some mp => some mp
    | none => findRequire cs

/-! ## The guard pattern

Go: `\w+\s*\([^)]*loadstring\s*\(\s*game:HttpGet` (`funcCallHttpGetRegex`
in `processor.go`), used with `MatchString`: only existence of a match
matters. -/

/-- Match the guard pattern's tail `loadstring\s*\(\s*game:HttpGet` at the
head of `cs`. -/
def matchGuardTailAt (cs : Str) : Bool :=
  (do
    let cs ← dropLit "loadstring".data cs
    let cs := dropSpaces cs
    let cs ← dropLit "(".data cs
    let cs := dropSpaces cs
    dropLit "game:HttpGet".data cs).isSome

/-- Scan `[^)]*` followed by the guard tail: true iff some split consumes
only non-`)` characters and then matches the tail. -/
def scanNonParenThenTail : Str → Bool
  | [] => false
  | c :: cs => matchGuardTailAt (c :: cs) || (c ≠ ')' && scanNonParenThenTail cs)

/-- Match the guard pattern at the head of `cs`. -/
def matchGuardAt (cs : Str) : Bool :=
  match cs with
  | [] => false
  | c :: rest =>
    isWordChar c &&
      (let p := takeWordChars rest
       match dropSpaces p.2 with
       | '(' :: rest2 => scanNonParenThenTail rest2
       | _ => false)

/-- `MatchString` of `funcCallHttpGetRegex` on one line. -/
def findGuard : Str → Bool
  | [] => false
  | c :: cs => matchGuardAt (c :: cs) || findGuard cs

/-! ## Go string helpers used by `isLocalModule` / `resolveModulePath` -/

/-- `strings.HasPrefix`. -/
def goHasPrefix (p cs : Str) : Bool :=
  (dropLit p cs).isSome

/-- `strings.HasSuffix`. -/
def goHasSuffix (p cs : Str) : Bool :=
  goHasPrefix p.reverse cs.reverse

/-- `strings.Contains` with a string needle. -/
def goContains : Str → Str → Bool
  | needle, [] => needle.isEmpty
  | needle, c :: cs => (dropLit needle (c :: cs)).isSome || goContains needle cs

/-- `strings.Split(s, ".")[0]`: the text before the first dot. -/
def firstDotSegment (cs : Str) : Str :=
  cs.takeWhile (· ≠ '.')

/-- `strings.Trim(s, "'\"")`: strip leading and trailing quote characters. -/
def trimQuotes (cs : Str) : Str :=
  ((cs.dropWhile isQuoteChar).reverse.dropWhile isQuoteChar).reverse

/-- `strings.TrimPrefix(s, "/")`: drop one leading slash if present. -/
def trimSlash : Str → Str
  | '/' :: cs => cs
  | cs => cs

/-- `strings.ReplaceAll(s, ".", "/")` — a single-character needle, so a
per-character map. -/
def dotsToSlashes (cs : Str) : Str :=
  cs.map fun c => if c = '.' then '/' else c

/-! ## `path/filepath` (Unix) lexical functions -/

/-- Split a path on `'/'` (`/` separators removed, empty components kept). -/
def splitSlash : Str → List Str
  | [] => [[]]
  | c :: cs =>
    if c = '/' then [] :: splitSlash cs
    else
      match splitSlash cs with
      | l :: ls => (c :: l) :: ls
      | [] => [[c]]

/-- The component-stack loop of Go `filepath.Clean`: skip empty and `.`
components, let `..` pop a previous component (or survive when there is
nothing to pop and the path is not rooted). `acc` holds the emitted
components in reverse. -/
def cleanComps (rooted : Bool) : List Str → List Str → List Str
  | acc, [] => acc.reverse
  | acc, c :: rest =>
    if c = ([] : Str) ∨ c = ['.'] then cleanComps rooted acc rest
    else if c = ['.', '.'] then
      match acc with
      | top :: acc' =>
        if top = ['.', '.'] then cleanComps rooted (c :: acc) rest
        else cleanComps rooted acc' rest
      | [] => if rooted then cleanComps rooted [] rest else cleanComps rooted [c] rest
    else cleanComps rooted (c :: acc) rest

/-- Join components with `'/'`. -/
def joinComps : List Str → Str
  | [] => []
  | [c] => c
  | c :: cs => c ++ '/' :: joinComps cs

/-- Go `filepath.Clean` on Unix. -/
def goClean (p : Str) : Str :=
  if p.isEmpty then ['.']
  else
    let rooted := goHasPrefix "/".data p
    let body := joinComps (cleanComps rooted [] (splitSlash p))
    if rooted then '/' :: body
    else if body.isEmpty then ['.'] else body

/-- Go `filepath.Join` for two elements: non-empty elements joined with
`'/'`, then `Clean`; all-empty gives the empty string. -/
def goJoin (a b : Str) : Str :=
  if a.isEmpty && b.isEmpty then []
  else if a.isEmpty then goClean b
  else if b.isEmpty then goClean a
  else goClean (a ++ '/' :: b)

/-- Go `filepath.Dir`: everything up to and including the final `'/'`
(empty if there is none), then `Clean`. -/
def goDir (p : Str) : Str :=
  goClean ((p.reverse.dropWhile (· ≠ '/')).reverse)

/-! ## `isLocalModule` (processor.go lines 60–90) -/

/-- The reserved external prefixes of `isLocalModule` (Roblox API names). -/
def externalPrefixes : List Str :=
  ["game".data, "workspace".data, "ReplicatedStorage".data, "ServerStorage".data,
   "StarterGui".data, "StarterPack".data, "StarterPlayer".data, "Lighting".data,
   "SoundService".data, "TweenService".data, "HttpService".data, "RunService".data,
   "UserInputService".data, "Players".data, "Teams".data, "Debris".data,
   "CollectionService".data]

/-- The `for _, prefix := range externalPrefixes { if firstPart == prefix }`
loop of `isLocalModule`. -/
def isReservedPrefix (s : Str) : Bool :=
  externalPrefixes.any fun p => decide (s = p)

/-- `Bundler.isLocalModule`: classify a module path as local (`true`) or
external (`false`). -/
def isLocalModule (modulePath : Str) : Bool :=
  if goContains "::".data modulePath then false
  else if isReservedPrefix (firstDotSegment modulePath) then false
  else
    goHasPrefix ".".data modulePath ||
    goHasPrefix "/".data modulePath ||
    modulePath.contains '/' ||
    goHasSuffix ".lua".data modulePath ||
    (modulePath.contains '.' && !modulePath.contains '/') ||
    (!modulePath.contains '.')

/-! ## `resolveModulePath` (processor.go lines 93–129) -/

/-- Append `".lua"` when the path does not already end with it. -/
def addLuaExt (p : Str) : Str :=
  if goHasSuffix ".lua".data p then p else p ++ ".lua".data

/-- `Bundler.resolveModulePath baseDir currentFile modulePath`.  The Go
code first reassigns `modulePath = strings.Trim(modulePath, "'\"")`
(written here as `trimQuotes modulePath` at each use), then tries three
branches in source order: absolute-from-base (leading `/`),
dot-separated-from-base (has `.`, no `/`, no `::`), and
relative-to-current-file (joined onto `Dir currentFile`, extension added,
then `Clean`ed once more). -/
def resolveModulePath (baseDir currentFile modulePath : Str) : Str :=
  if goHasPrefix "/".data (trimQuotes modulePath) then
    addLuaExt (goJoin baseDir (trimSlash (trimQuotes modulePath)))
  else if (trimQuotes modulePath).contains '.' && !(trimQuotes modulePath).contains '/'
      && !goContains "::".data (trimQuotes modulePath) then
    addLuaExt (goJoin baseDir (dotsToSlashes (trimQuotes modulePath)))
  else
    goClean (addLuaExt (goJoin (goDir currentFile) (trimQuotes modulePath)))

/-! ## `downloadHTTP` (processor.go lines 14–57)

The cache and the HTTP client are modelled as an environment.  A cache
`Get` returns `(content, found, err)`; `downloadHTTP` uses the cached
value only when `err == nil && found`.  The HTTP client either fails at
transport level or yields a response with a status code and a body whose
`io.ReadAll` may itself fail.  A cache `Set` returns an error that the
code only logs, so the model records its outcome as a `Bool` function
that the result must not depend on. -/

/-- Outcome of `b.cache.Get(url)`. -/
inductive CacheGet where
  | hit (content : Str)
  | miss
  | getErr
  deriving DecidableEq

/-- Outcome of `b.httpClient.Get(url)` followed by `io.ReadAll`. -/
inductive HttpGet where
  | transportErr
  | resp (status : Nat) (body : Option Str)
  deriving DecidableEq

/-- Environment of `downloadHTTP`. -/
structure FetchEnv where
  cacheEnabled : Bool
  cacheGet : Str → CacheGet
  http : Str → HttpGet
  cacheSetOk : Str → Str → Bool

deriving instance DecidableEq for Except

/-- Errors of `downloadHTTP`; each constructor names the URL, the
constructor itself is the cause (`failed to download %s: %w`,
`failed to download %s: status %d`, `failed to read response from %s`). -/
inductive DlErr where
  | transport (url : Str)
  | status (url : Str) (code : Nat)
  | readBody (url : Str)
  deriving DecidableEq

/-- The URL named by a `downloadHTTP` error. -/
def DlErr.url : DlErr → Str
  | .transport u => u
  | .status u _ => u
  | .readBody u => u

/-- `Bundler.downloadHTTP`. -/
def downloadHTTP (env : FetchEnv) (url : Str) : Except DlErr Str :=
  match (if env.cacheEnabled then env.cacheGet url else .miss) with
  | .hit content => .ok content
  | _ =>
    match env.http url with
    | .transportErr => .error (.transport url)
    | .resp status body =>
      if status ≠ 200 then .error (.status url status)
      else
        match body with
        | none => .error (.readBody url)
        | some content =>
          let _ := env.cacheEnabled && env.cacheSetOk url content
          .ok content

/-! ## `processFile` (processor.go lines 132–218)

State, environment and configuration of one bundling run.  The module
table is an association list (key = the literal reference, newest entry
first); `httpModules` is the set of keys flagged Remote.  The traversal
records a trace event for every disk read and every network fetch it
performs, keyed by the literal reference, so that the deduplication
claims can be stated about whole runs. -/

/-- `strings.Split(content, "\n")`. -/
def splitLines : Str → List Str
  | [] => [[]]
  | c :: cs =>
    if c = '\n' then [] :: splitLines cs
    else
      match splitLines cs with
      | l :: ls => (c :: l) :: ls
      | [] => [[c]]

/-- Association-list lookup for the module table. -/
def lookupMod (k : Str) : List (Str × Str) → Option Str
  | [] => none
  | (k', v) :: rest => if k = k' then some v else lookupMod k rest

/-- Mutable state of a `Bundler` during `processFile`. -/
structure BState where
  modules : List (Str × Str)
  httpModules : List Str
  deriving DecidableEq

/-- External world: local files (keyed by resolved path) and the fetch
layer. -/
structure BEnv where
  fs : Str → Option Str
  fetch : FetchEnv

/-- Per-session configuration: base directory, obfuscation level and the
(optional) obfuscator, exactly the fields of `Bundler` that
`processFile` consults. -/
structure Cfg where
  baseDir : Str
  obfuscateLevel : Nat
  obfuscator : Option (Str → Str)

/-- `if b.obfuscateLevel > 0 && b.obfuscator != nil { m = obf.Obfuscate(m) }`. -/
def applyObf (cfg : Cfg) (s : Str) : Str :=
  match cfg.obfuscator with
  | some f => if cfg.obfuscateLevel > 0 then f s else s
  | none => s

/-- One trace event: a disk read (literal key, resolved path) or a
network fetch (URL key). -/
inductive Ev where
  | read (key : Str) (path : Str)
  | fetch (url : Str)
  deriving DecidableEq

/-- The deduplication key of an event. -/
def Ev.key : Ev → Str
  | .read k _ => k
  | .fetch u => u

/-- Fatal errors of `processFile`. -/
inductive BErr where
  | readErr (path : Str)
  | fetchErr (e : DlErr)
  deriving DecidableEq

/-- Outcome of a (fuel-bounded) run: normal return, fatal error, or fuel
exhaustion (a modelling artifact — the Go recursion has no fuel). -/
inductive Out where
  | ok
  | err (e : BErr)
  | fuelOut
  deriving DecidableEq

/-- `Out.isErr`. -/
def Out.isErr : Out → Bool
  | .err _ => true
  | _ => false

/-- Result of processing: final state, trace of reads/fetches in order,
and outcome. -/
abbrev RunRes := BState × List Ev × Out

/-- The line loop of `Bundler.processFile`, structurally recursive on
fuel.  One unit of fuel is spent per line and per file recursion.  Per
line, in source order: the guard rule skips the line; the
fetch-and-execute rule either skips the line (URL already in the table),
aborts (fetch failure), or stores the fetched text, flagged Remote, and
recurses into it using the URL as the file path; then — whether or not
the fetch rule fired — the require rule runs on the same line: a local,
not-yet-seen module is read from disk (abort on failure), stored after
obfuscation, and recursed into using the original (pre-obfuscation) file
content.  The Go `continue` statements become tail calls on `rest`. -/
def run (env : BEnv) (cfg : Cfg) : Nat → BState → Str → List Str → RunRes
  | 0, st, _, _ => (st, [], .fuelOut)
  | _ + 1, st, _, [] => (st, [], .ok)
  | fuel + 1, st, fp, line :: rest =>
    let reqPart : BState → RunRes := fun stR =>
      match findRequire line with
      | some mp =>
        if mp.isEmpty then run env cfg fuel stR fp rest
        else if isLocalModule mp then
          let rp := resolveModulePath cfg.baseDir fp mp
          if (lookupMod mp stR.modules).isSome then run env cfg fuel stR fp rest
          else
            match env.fs rp with
            | none => (stR, [.read mp rp], .err (.readErr rp))
            | some fc =>
              let stN : BState :=
                ⟨(mp, applyObf cfg fc) :: stR.modules, stR.httpModules⟩
              match run env cfg fuel stN rp (splitLines fc) with
              | (st2, tr2, .ok) =>
                let r := run env cfg fuel st2 fp rest
                (r.1, .read mp rp :: (tr2 ++ r.2.1), r.2.2)
              | (st2, tr2, o) => (st2, .read mp rp :: tr2, o)
        else run env cfg fuel stR fp rest
      | none => run env cfg fuel stR fp rest
    if findGuard line then run env cfg fuel st fp rest
    else
      match findHttpGet line with
      | some url =>
        if (lookupMod url st.modules).isSome then run env cfg fuel st fp rest
        else
          match downloadHTTP env.fetch url with
          | .error e => (st, [.fetch url], .err (.fetchErr e))
          | .ok content =>
            let stH : BState :=
              ⟨(url, content) :: st.modules, url :: st.httpModules⟩
            match run env cfg fuel stH url (splitLines content) with
            | (st2, tr2, .ok) =>
              let r := reqPart st2
              (r.1, .fetch url :: (tr2 ++ r.2.1), r.2.2)
            | (st2, tr2, o) => (st2, .fetch url :: tr2, o)
      | none => reqPart st

/-- `Bundler.processFile filePath content`: split into lines and run the
line loop. -/
def processFile (env : BEnv) (cfg : Cfg) (fuel : Nat) (st : BState)
    (filePath content : Str) : RunRes :=
  run env cfg fuel st filePath (splitLines content)

/-- The require rule applied to one line, with continuation `rest` — the
second half of the loop body of `processFile`, as a standalone function
(its body is the `reqPart` of `run`).  `run` reaches it both when the
fetch-and-execute rule did not match and after a successful fresh
fetch. -/
def requireOnLine (env : BEnv) (cfg : Cfg) (fuel : Nat) (stR : BState)
    (fp line : Str) (rest : List Str) : RunRes :=
  match findRequire line with
  | some mp =>
    if mp.isEmpty then run env cfg fuel stR fp rest
    else if isLocalModule mp then
      let rp := resolveModulePath cfg.baseDir fp mp
      if (lookupMod mp stR.modules).isSome then run env cfg fuel stR fp rest
      else
        match env.fs rp with
        | none => (stR, [.read mp rp], .err (.readErr rp))
        | some fc =>
          let stN : BState :=
            ⟨(mp, applyObf cfg fc) :: stR.modules, stR.httpModules⟩
          match run env cfg fuel stN rp (splitLines fc) with
          | (st2, tr2, .ok) =>
            let r := run env cfg fuel st2 fp rest
            (r.1, .read mp rp :: (tr2 ++ r.2.1), r.2.2)
          | (st2, tr2, o) => (st2, .read mp rp :: tr2, o)
    else run env cfg fuel stR fp rest
  | none => run env cfg fuel stR fp rest

/-! ## Concrete environments used by the example runs -/

/-- A file system with the two-module cycle of the spec's termination
property: the entry `base/A.lua` requires `B`, and `base/B.lua` requires
`A` back. -/
def fsCycle : Str → Option Str := fun p =>
  if p = "base/A.lua".data then some "require(\"B\")".data
  else if p = "base/B.lua".data then some "require(\"A\")".data
  else none

/-- A fetch layer that always fails at transport level. -/
def fetchDown : FetchEnv :=
  ⟨false, fun _ => .miss, fun _ => .transportErr, fun _ _ => true⟩

/-- Environment for the cycle run (no network needed). -/
def envCycle : BEnv := ⟨fsCycle, fetchDown⟩

/-- Plain configuration: base directory `base`, no obfuscation. -/
def cfgPlain : Cfg := ⟨"base".data, 0, none⟩

/-- The empty starting state of a fresh `Bundler`. -/
def st0 : BState := ⟨[], []⟩

/-- Assembly of a storing branch's result from the recursion's result and
the continuation: on success continue from the recursion's state, with
the step's event prepended to the trace; otherwise propagate. -/
def stepAssemble (ev : Ev) (r1 : RunRes) (cont : BState → RunRes) : RunRes :=
  match r1 with
  | (st2, tr2, .ok) =>
    ((cont st2).1, ev :: (tr2 ++ (cont st2).2.1), (cont st2).2.2)
  | (st2, tr2, o) => (st2, ev :: tr2, o)

/-! ## Further concrete environments for specific claims -/

/-- Files for the obfuscation scenario of claim C1: `base/a.lua` requires
`b`; `base/b.lua` has no dependencies. -/
def fsObf : Str → Option Str := fun p =>
  if p = "base/a.lua".data then some "require(\"b\")".data
  else if p = "base/b.lua".data then some "local x = 1".data
  else none

/-- Environment for the obfuscation scenario. -/
def envObf : BEnv := ⟨fsObf, fetchDown⟩

/-- Configuration with obfuscation level 2 and an obfuscator that rewrites
every module to a fixed comment (which contains no require/fetch call). -/
def cfgObf : Cfg := ⟨"base".data, 2, some fun _ => "-- obfuscated".data⟩

/-- A file system where every path is readable. -/
def fsAll : Str → Option Str := fun _ => some "local x = 1".data

/-- Environment with a total file system and a dead network. -/
def envAll : BEnv := ⟨fsAll, fetchDown⟩

/-- A file system with no readable files. -/
def fsNone : Str → Option Str := fun _ => none

/-- Environment with no readable files and a dead network. -/
def envNone : BEnv := ⟨fsNone, fetchDown⟩

/-- A fetch layer serving a remote module that itself requires `./m`, and
the plain URL `u`. -/
def fetchWeb : FetchEnv :=
  ⟨false, fun _ => .miss,
   fun u =>
     if u = "http://h/a/b.lua".data then .resp 200 (some "require(\"./m\")".data)
     else if u = "u".data then .resp 200 (some "local y = 2".data)
     else .transportErr,
   fun _ _ => true⟩

/-- Local files for the remote-relative-require scenario of claim C10:
the path obtained by resolving `./m` against the URL's directory. -/
def fsWeb : Str → Option Str := fun p =>
  if p = "http:/h/a/m.lua".data then some "local m = 3".data else none

/-- Environment for the remote-relative-require scenario. -/
def envWeb : BEnv := ⟨fsWeb, fetchWeb⟩

/-- A state whose module table already holds the URL key `u`. -/
def stU : BState := ⟨[("u".data, [])], []⟩

/-- A fetch layer answering every URL with HTTP status 204 (a 2xx status)
and a readable body. -/
def fetch204 : FetchEnv :=
  ⟨false, fun _ => .miss, fun _ => .resp 204 (some "x".data), fun _ _ => true⟩

/-- The fetch contract as the amended claim C7 words it: on a cache miss,
transport failure, a status other than exactly 200, and body-read failure
are errors; a 200 response with a readable body succeeds. -/
def downloadSpec (env : FetchEnv) (url : Str) : Except DlErr Str :=
  match env.http url with
  | .transportErr => .error (.transport url)
  | .resp status body =>
    if status = 200 then
      match body with
      | some content => .ok content
      | none => .error (.readBody url)
    else .error (.status url status)

/-- A line on which both the fetch-and-execute rule and the require rule
match. -/
def lineBoth : Str := "loadstring(game:HttpGet(\"u\"))() require(\"m\")".data

/-- A line fetching the remote module of the claim C10 scenario. -/
def lineWeb : Str := "loadstring(game:HttpGet(\"http://h/a/b.lua\"))()".data

/-! ## The run invariant (deduplication, claim C4)

`Inv st r` relates a starting state to the result of processing from it:
the module table only grows; every recorded read/fetch is for a key that
was absent when it happened; no key is read/fetched twice; unless the run
aborted, every traced key ends up in the table; and distinctness of table
keys is preserved. -/

/-- The run invariant. -/
def Inv (st : BState) (r : RunRes) : Prop :=
  (∀ k, (lookupMod k st.modules).isSome → (lookupMod k r.1.modules).isSome)
  ∧ (∀ e ∈ r.2.1, lookupMod (Ev.key e) st.modules = none)
  ∧ (r.2.1.map Ev.key).Nodup
  ∧ (r.2.2.isErr = false → ∀ e ∈ r.2.1, (lookupMod (Ev.key e) r.1.modules).isSome)
  ∧ ((st.modules.map Prod.fst).Nodup → (r.1.modules.map Prod.fst).Nodup)

theorem lookupMod_isSome_iff_mem (k : Str) (l : List (Str × Str)) :
    (lookupMod k l).isSome ↔ k ∈ l.map Prod.fst := by
  induction l with
  | nil => simp [lookupMod]
  | cons p rest ih =>
    obtain ⟨k', v⟩ := p
    by_cases h : k = k' <;> simp [lookupMod, h, ih]

theorem inv_triv (st : BState) (o : Out) : Inv st (st, [], o) := by
  refine ⟨fun k h => h, by simp, by simp, by simp, fun h => h⟩

theorem inv_single_err (st : BState) (ev : Ev) (e : BErr)
    (h : lookupMod (Ev.key ev) st.modules = none) :
    Inv st (st, [ev], .err e) := by
  refine ⟨fun k h => h, ?_, by simp, by simp [Out.isErr], fun h => h⟩
  intro e' he'
  simp at he'
  simpa [he'] using h


/-- The composite shape shared by the two storing branches of the line
loop: insert a fresh key, recurse, and on success continue; the recorded
event carries the inserted key. -/
theorem inv_step (st stN : BState) (key : Str) (ev : Ev) (hkey : Ev.key ev = key)
    (hnew : lookupMod key st.modules = none)
    (hmod : ∃ v, stN.modules = (key, v) :: st.modules)
    (r1 : RunRes) (h1 : Inv stN r1)
    (cont : BState → RunRes) (hcont : ∀ s, Inv s (cont s)) :
    Inv st (stepAssemble ev r1 cont) := by
  subst hkey
  obtain ⟨v, hv⟩ := hmod
  obtain ⟨st2, tr2, o⟩ := r1
  obtain ⟨h1mono, h1abs, h1nd, h1post, h1nodup⟩ := h1
  simp only at h1mono h1abs h1nd h1post h1nodup
  unfold stepAssemble
  have hmonoN : ∀ k, (lookupMod k st.modules).isSome → (lookupMod k stN.modules).isSome := by
    intro k hk
    rw [hv, lookupMod]
    by_cases hkk : k = Ev.key ev <;> simp [hkk, hk]
  have hkeyN : (lookupMod (Ev.key ev) stN.modules).isSome := by
    rw [hv, lookupMod]; simp
  have habsN : ∀ e ∈ tr2, lookupMod (Ev.key e) st.modules = none := by
    intro e he
    have h' := h1abs e he
    rw [hv, lookupMod] at h'
    by_cases hkk : Ev.key e = Ev.key ev
    · simp [hkk] at h'
    · simpa [hkk] using h'
  have hkey_not_tr2 : Ev.key ev ∉ tr2.map Ev.key := by
    intro hk
    obtain ⟨e, he, hek⟩ := List.mem_map.mp hk
    have h' := h1abs e he
    rw [hek] at h'
    rw [h'] at hkeyN
    simp at hkeyN
  have hnodupN : (st.modules.map Prod.fst).Nodup → (stN.modules.map Prod.fst).Nodup := by
    intro h
    rw [hv]
    simp only [List.map_cons, List.nodup_cons]
    refine ⟨fun hm => ?_, h⟩
    rw [← lookupMod_isSome_iff_mem] at hm
    rw [hnew] at hm
    simp at hm
  cases o with
  | ok =>
    obtain ⟨hcmono, hcabs, hcnd, hcpost, hcnodup⟩ := hcont st2
    have hok : Out.isErr .ok = false := rfl
    refine ⟨?_, ?_, ?_, ?_, ?_⟩
    · intro k hk
      exact hcmono k (h1mono k (hmonoN k hk))
    · intro e he
      simp only [List.mem_cons, List.mem_append] at he
      rcases he with he | he | he
      · rw [he]; exact hnew
      · exact habsN e he
      · have h' := hcabs e he
        cases hopt : lookupMod (Ev.key e) st.modules with
        | none => rfl
        | some x =>
          exfalso
          have hs : (lookupMod (Ev.key e) st.modules).isSome := by rw [hopt]; rfl
          have hs2 := h1mono _ (hmonoN _ hs)
          rw [h'] at hs2
          simp at hs2
    · simp only [List.map_cons, List.map_append]
      rw [List.nodup_cons]
      constructor
      · intro hk
        rw [List.mem_append] at hk
        rcases hk with hk | hk
        · exact hkey_not_tr2 hk
        · obtain ⟨e, he, hek⟩ := List.mem_map.mp hk
          have h' := hcabs e he
          rw [hek] at h'
          have h2 := h1mono _ hkeyN
          rw [h'] at h2
          simp at h2
      · refine List.Nodup.append h1nd hcnd ?_
        intro a ha hb
        obtain ⟨e, he, hek⟩ := List.mem_map.mp ha
        obtain ⟨e', he', hek'⟩ := List.mem_map.mp hb
        have hsome := h1post hok e he
        have hnone := hcabs e' he'
        rw [hek] at hsome
        rw [hek'] at hnone
        rw [hnone] at hsome
        simp at hsome
    · intro ho e he
      simp only [List.mem_cons, List.mem_append] at he
      rcases he with he | he | he
      · rw [he]
        exact hcmono _ (h1mono _ hkeyN)
      · exact hcmono _ (h1post hok e he)
      · exact hcpost ho e he
    · intro h
      exact hcnodup (h1nodup (hnodupN h))
  | err e' =>
    refine ⟨fun k hk => h1mono k (hmonoN k hk), ?_, ?_, by simp [Out.isErr], fun h => h1nodup (hnodupN h)⟩
    · intro e he
      simp only [List.mem_cons] at he
      rcases he with he | he
      · rw [he]; exact hnew
      · exact habsN e he
    · simp only [List.map_cons]
      rw [List.nodup_cons]
      exact ⟨hkey_not_tr2, h1nd⟩
  | fuelOut =>
    refine ⟨fun k hk => h1mono k (hmonoN k hk), ?_, ?_, ?_, fun h => h1nodup (hnodupN h)⟩
    · intro e he
      simp only [List.mem_cons] at he
      rcases he with he | he
      · rw [he]; exact hnew
      · exact habsN e he
    · simp only [List.map_cons]
      rw [List.nodup_cons]
      exact ⟨hkey_not_tr2, h1nd⟩
    · intro _ e he
      simp only [List.mem_cons] at he
      rcases he with he | he
      · rw [he]
        exact h1mono _ hkeyN
      · exact h1post rfl e he

theorem eq_none_of_isSome_false {o : Option Str} (h : o.isSome = false) : o = none := by
  cases o <;> simp at h ⊢

theorem eq_none_of_not_isSome {o : Option Str} (h : ¬ o.isSome = true) : o = none := by
  cases o <;> simp at h ⊢

/-- Unfolding equation for the line case of `run`, with the require rule
expressed through `requireOnLine`. -/
theorem run_cons (env : BEnv) (cfg : Cfg) (fuel : Nat) (st : BState) (fp line : Str)
    (rest : List Str) :
    run env cfg (fuel + 1) st fp (line :: rest) =
      if findGuard line then run env cfg fuel st fp rest
      else
        match findHttpGet line with
        | some url =>
          if (lookupMod url st.modules).isSome then run env cfg fuel st fp rest
          else
            match downloadHTTP env.fetch url with
            | .error e => (st, [.fetch url], .err (.fetchErr e))
            | .ok content =>
              stepAssemble (.fetch url)
                (run env cfg fuel ⟨(url, content) :: st.modules, url :: st.httpModules⟩
                  url (splitLines content))
                (fun s => requireOnLine env cfg fuel s fp line rest)
        | none => requireOnLine env cfg fuel st fp line rest := by
  rfl

/-- Unfolding equation for `requireOnLine`, with the storing branch
expressed through `stepAssemble`. -/
theorem requireOnLine_eq (env : BEnv) (cfg : Cfg) (fuel : Nat) (st : BState)
    (fp line : Str) (rest : List Str) :
    requireOnLine env cfg fuel st fp line rest =
      match findRequire line with
      | some mp =>
        if mp.isEmpty then run env cfg fuel st fp rest
        else if isLocalModule mp then
          if (lookupMod mp st.modules).isSome then run env cfg fuel st fp rest
          else
            match env.fs (resolveModulePath cfg.baseDir fp mp) with
            | none =>
              (st, [.read mp (resolveModulePath cfg.baseDir fp mp)],
               .err (.readErr (resolveModulePath cfg.baseDir fp mp)))
            | some fc =>
              stepAssemble (.read mp (resolveModulePath cfg.baseDir fp mp))
                (run env cfg fuel ⟨(mp, applyObf cfg fc) :: st.modules, st.httpModules⟩
                  (resolveModulePath cfg.baseDir fp mp) (splitLines fc))
                (fun s => run env cfg fuel s fp rest)
        else run env cfg fuel st fp rest
      | none => run env cfg fuel st fp rest := by
  rfl

/-- The invariant holds for the require half of the loop body, given that
it holds for every run at the remaining fuel. -/
theorem inv_requireOnLine (env : BEnv) (cfg : Cfg) (fuel : Nat)
    (IH : ∀ st fp lines, Inv st (run env cfg fuel st fp lines)) :
    ∀ st fp line rest, Inv st (requireOnLine env cfg fuel st fp line rest) := by
  intro st fp line rest
  rw [requireOnLine_eq]
  split
  case h_2 => exact IH st fp rest
  case h_1 mp hreq =>
    split
    case isTrue => exact IH st fp rest
    case isFalse hmp =>
      split
      case isFalse => exact IH st fp rest
      case isTrue hloc =>
        split
        case isTrue => exact IH st fp rest
        case isFalse hdup =>
          split
          case h_1 hfs =>
            exact inv_single_err st (.read mp (resolveModulePath cfg.baseDir fp mp))
              (.readErr (resolveModulePath cfg.baseDir fp mp))
              (eq_none_of_not_isSome hdup)
          case h_2 fc hfs =>
            exact inv_step st ⟨(mp, applyObf cfg fc) :: st.modules, st.httpModules⟩
              mp (.read mp (resolveModulePath cfg.baseDir fp mp)) rfl
              (eq_none_of_not_isSome hdup) ⟨applyObf cfg fc, rfl⟩
              (run env cfg fuel ⟨(mp, applyObf cfg fc) :: st.modules, st.httpModules⟩
                (resolveModulePath cfg.baseDir fp mp) (splitLines fc))
              (IH _ _ _)
              (fun s => run env cfg fuel s fp rest)
              (fun s => IH s fp rest)

/-- The run invariant holds for every run. -/
theorem inv_run (env : BEnv) (cfg : Cfg) :
    ∀ fuel st fp lines, Inv st (run env cfg fuel st fp lines) := by
  intro fuel
  induction fuel with
  | zero => intro st fp lines; exact inv_triv st .fuelOut
  | succ fuel IH =>
    intro st fp lines
    cases lines with
    | nil => exact inv_triv st .ok
    | cons line rest =>
      rw [run_cons]
      split
      case isTrue => exact IH st fp rest
      case isFalse hg =>
        split
        case h_2 => exact inv_requireOnLine env cfg fuel IH st fp line rest
        case h_1 url hhttp =>
          split
          case isTrue => exact IH st fp rest
          case isFalse hdup =>
            split
            case h_1 e hdl =>
              exact inv_single_err st (.fetch url) (.fetchErr e)
                (eq_none_of_not_isSome hdup)
            case h_2 content hdl =>
              exact inv_step st ⟨(url, content) :: st.modules, url :: st.httpModules⟩
                url (.fetch url) rfl (eq_none_of_not_isSome hdup) ⟨content, rfl⟩
                (run env cfg fuel ⟨(url, content) :: st.modules, url :: st.httpModules⟩
                  url (splitLines content))
                (IH _ _ _)
                (fun s => requireOnLine env cfg fuel s fp line rest)
                (fun s => inv_requireOnLine env cfg fuel IH s fp line rest)

/-! ## Completeness of the guard scanner

For claim C9 the guard rule must fire on every line that contains, at any
position, a word run, optional whitespace, an opening parenthesis, a run
of non-`)` characters and then the guard tail
`loadstring\s*\(\s*game:HttpGet`. -/

theorem isWordChar_false_of_space {c : Char} (h : isSpaceChar c = true) :
    isWordChar c = false := by
  simp only [isSpaceChar, Bool.or_eq_true, decide_eq_true_eq] at h
  rcases h with (((h | h) | h) | h) | h <;> subst h <;> decide

theorem takeWordChars_append (w r : Str) (hw : ∀ c ∈ w, isWordChar c = true) :
    takeWordChars (w ++ r) = (w ++ (takeWordChars r).1, (takeWordChars r).2) := by
  induction w with
  | nil => simp
  | cons c w ih =>
    simp only [List.cons_append, takeWordChars, List.append_eq, hw c (by simp), if_true]
    rw [ih fun x hx => hw x (by simp [hx])]

theorem takeWordChars_stop (l : Str) (h : ∀ c, l.head? = some c → isWordChar c = false) :
    takeWordChars l = ([], l) := by
  cases l with
  | nil => rfl
  | cons c cs => simp [takeWordChars, h c rfl]

theorem dropSpaces_append (sp r : Str) (h : ∀ c ∈ sp, isSpaceChar c = true) :
    dropSpaces (sp ++ r) = dropSpaces r := by
  induction sp with
  | nil => rfl
  | cons c sp ih =>
    simp only [List.cons_append, dropSpaces, List.append_eq, h c (by simp), if_true]
    exact ih fun x hx => h x (by simp [hx])

theorem scanNonParen_append (mid tail : Str) (hmid : ∀ c ∈ mid, c ≠ ')')
    (ht : matchGuardTailAt tail = true) :
    scanNonParenThenTail (mid ++ tail) = true := by
  induction mid with
  | nil =>
    cases tail with
    | nil => simp [matchGuardTailAt, dropLit] at ht
    | cons c cs => simp [scanNonParenThenTail, ht]
  | cons c mid ih =>
    simp only [List.cons_append, scanNonParenThenTail, List.append_eq, Bool.or_eq_true]
    right
    simp [hmid c (by simp), ih fun x hx => hmid x (by simp [hx])]

theorem matchGuardAt_decomp (c : Char) (w sp mid tail : Str)
    (hc : isWordChar c = true) (hw : ∀ x ∈ w, isWordChar x = true)
    (hsp : ∀ x ∈ sp, isSpaceChar x = true) (hmid : ∀ x ∈ mid, x ≠ ')')
    (ht : matchGuardTailAt tail = true) :
    matchGuardAt (c :: (w ++ (sp ++ ('(' :: (mid ++ tail))))) = true := by
  have hstop : takeWordChars (sp ++ ('(' :: (mid ++ tail)))
      = ([], sp ++ ('(' :: (mid ++ tail))) := by
    apply takeWordChars_stop
    intro x hx
    cases sp with
    | nil =>
      simp at hx
      subst hx
      decide
    | cons s sp' =>
      simp at hx
      subst hx
      exact isWordChar_false_of_space (hsp s (by simp))
  have hdrop : dropSpaces (sp ++ ('(' :: (mid ++ tail))) = '(' :: (mid ++ tail) := by
    rw [dropSpaces_append sp _ hsp]
    simp only [dropSpaces]
    rw [if_neg (by decide)]
  simp only [matchGuardAt, hc, Bool.true_and]
  rw [takeWordChars_append w _ hw, hstop]
  simp only [List.append_nil]
  rw [hdrop]
  exact scanNonParen_append mid tail hmid ht

theorem findGuard_suffix (pre s : Str) (h : matchGuardAt s = true) :
    findGuard (pre ++ s) = true := by
  induction pre with
  | nil =>
    cases s with
    | nil => simp [matchGuardAt] at h
    | cons c cs => simp [findGuard, h]
  | cons c pre ih => simp [findGuard, ih]


/-! ## Bridging lemmas for `List.contains` and quote trimming -/

theorem contains_false_iff (l : Str) (a : Char) : l.contains a = false ↔ a ∉ l := by
  induction l with
  | nil => simp
  | cons c cs ih =>
    simp only [List.contains_cons, Bool.or_eq_false_iff, ih, List.mem_cons,
      beq_eq_false_iff_ne]
    constructor
    · rintro ⟨h1, h2⟩ h
      rcases h with h | h
      · exact h1 h
      · exact h2 h
    · intro h
      exact ⟨fun hc => h (Or.inl hc), fun hm => h (Or.inr hm)⟩

theorem firstDotSegment_of_no_dot (mp : Str) (h : mp.contains '.' = false) :
    firstDotSegment mp = mp := by
  rw [contains_false_iff] at h
  induction mp with
  | nil => rfl
  | cons c cs ih =>
    have hc : c ≠ '.' := fun hc => h (by simp [hc])
    simp only [firstDotSegment, List.takeWhile_cons] at ih ⊢
    rw [if_pos (by simp [hc])]
    have := ih fun hm => h (by simp [hm])
    simpa [firstDotSegment] using this

theorem isReservedPrefix_eq_false {s : Str} (h : s ∉ externalPrefixes) :
    isReservedPrefix s = false := by
  rw [isReservedPrefix, List.any_eq_false]
  intro p hp
  simp only [decide_eq_true_eq]
  intro hsp
  exact h (hsp ▸ hp)

theorem dropWhile_quote_eq_self (l : Str) (h : ∀ c ∈ l, isQuoteChar c = false) :
    l.dropWhile isQuoteChar = l := by
  cases l with
  | nil => rfl
  | cons c cs =>
    rw [List.dropWhile_cons, if_neg]
    simp [h c (by simp)]

theorem trimQuotes_eq_self (mp : Str) (h : ∀ c ∈ mp, isQuoteChar c = false) :
    trimQuotes mp = mp := by
  unfold trimQuotes
  rw [dropWhile_quote_eq_self mp h,
    dropWhile_quote_eq_self mp.reverse (fun c hc => h c (List.mem_reverse.mp hc)),
    List.reverse_reverse]

theorem goHasPrefix_slash_false (mp : Str) (h : mp.contains '/' = false) :
    goHasPrefix "/".data mp = false := by
  rw [contains_false_iff] at h
  cases mp with
  | nil => rfl
  | cons c cs =>
    have hc : c ≠ '/' := fun hc => h (by simp [hc])
    simp [goHasPrefix, dropLit, hc]

/-! ## Claim theorems -/

/-- C1 (counterexample): with obfuscation enabled and an obfuscator that
rewrites every module to a comment, the stored text of module `a`
contains no require or fetch reference at all, yet its dependency `b` is
still discovered and read — so the recursive scan cannot have been
performed on the stored post-obfuscation text. -/
theorem c1_counterexample :
    lookupMod "a".data
        (processFile envObf cfgObf 10 st0 "base/main.lua".data
          "require(\"a\")".data).1.modules = some "-- obfuscated".data
    ∧ findRequire "-- obfuscated".data = none
    ∧ findHttpGet "-- obfuscated".data = none
    ∧ (lookupMod "b".data
        (processFile envObf cfgObf 10 st0 "base/main.lua".data
          "require(\"a\")".data).1.modules).isSome = true
    ∧ (processFile envObf cfgObf 10 st0 "base/main.lua".data
        "require(\"a\")".data).2.2 = .ok := by
  decide

/-- C1 (amended): after the obfuscated text `applyObf cfg fc` is inserted
into the module table, the recursive dependency scan of the module is
performed on the original file content `fc` read from disk (the recursion
argument is `splitLines fc`), not on the stored post-obfuscation text. -/
theorem c1_amended_thm (env : BEnv) (cfg : Cfg) (fuel : Nat) (st : BState)
    (fp line : Str) (rest : List Str) (mp fc : Str)
    (hreq : findRequire line = some mp) (hmp : mp.isEmpty = false)
    (hloc : isLocalModule mp = true) (hdup : lookupMod mp st.modules = none)
    (hfs : env.fs (resolveModulePath cfg.baseDir fp mp) = some fc) :
    requireOnLine env cfg fuel st fp line rest =
      stepAssemble (.read mp (resolveModulePath cfg.baseDir fp mp))
        (run env cfg fuel ⟨(mp, applyObf cfg fc) :: st.modules, st.httpModules⟩
          (resolveModulePath cfg.baseDir fp mp) (splitLines fc))
        (fun s => run env cfg fuel s fp rest) := by
  rw [requireOnLine_eq, hreq]
  simp only [hmp, hloc, hfs, hdup, Option.isSome_none, Bool.false_eq_true,
    if_false, if_true]

/-- Witness for C1 (amended) at a concrete input. -/
theorem c1_witness :
    requireOnLine envObf cfgObf 5 st0 "base/main.lua".data "require(\"a\")".data [] =
      stepAssemble (.read "a".data "base/a.lua".data)
        (run envObf cfgObf 5 ⟨[("a".data, "-- obfuscated".data)], []⟩
          "base/a.lua".data (splitLines "require(\"b\")".data))
        (fun s => run envObf cfgObf 5 s "base/main.lua".data []) :=
  c1_amended_thm envObf cfgObf 5 st0 "base/main.lua".data "require(\"a\")".data []
    "a".data "require(\"b\")".data (by decide) (by decide) (by decide) (by decide)
    (by decide)

/-- C2 (counterexample): the reference `game.Foo` is classified External,
the network is down and the file system empty — yet processing returns
`.ok` with no fetch event and no stored record, so External require
references are not fetched via the remote fetcher at all. -/
theorem c2_counterexample :
    isLocalModule "game.Foo".data = false
    ∧ processFile envNone cfgPlain 3 st0 "base/main.lua".data
        "require(\"game.Foo\")".data = (st0, [], .ok) := by
  decide

/-- C2 (amended): a require reference classified External is skipped
entirely: the line's require rule performs no fetch, records no event,
stores nothing, and processing continues with the next line. -/
theorem c2_amended_thm (env : BEnv) (cfg : Cfg) (fuel : Nat) (st : BState)
    (fp line : Str) (rest : List Str) (mp : Str)
    (hreq : findRequire line = some mp) (hloc : isLocalModule mp = false) :
    requireOnLine env cfg fuel st fp line rest = run env cfg fuel st fp rest := by
  rw [requireOnLine_eq]
  cases hmp : mp.isEmpty <;> simp [hreq, hloc, hmp]

/-- Witness for C2 (amended) at a concrete input. -/
theorem c2_witness :
    requireOnLine envNone cfgPlain 3 st0 "base/main.lua".data
        "require(\"game.Foo\")".data [] =
      run envNone cfgPlain 3 st0 "base/main.lua".data [] :=
  c2_amended_thm envNone cfgPlain 3 st0 "base/main.lua".data
    "require(\"game.Foo\")".data [] "game.Foo".data (by decide) (by decide)

/-- C3 (counterexample): on a line where the fetch-and-execute rule
matches an already-stored URL and the require rule matches a fresh local
module, with every file readable, processing skips the whole line: the
require rule is never evaluated, no read happens and no record is
added. -/
theorem c3_counterexample :
    findGuard lineBoth = false
    ∧ findHttpGet lineBoth = some "u".data
    ∧ findRequire lineBoth = some "m".data
    ∧ isLocalModule "m".data = true
    ∧ (lookupMod "u".data stU.modules).isSome = true
    ∧ lookupMod "m".data stU.modules = none
    ∧ run envAll cfgPlain 2 stU "base/main.lua".data [lineBoth] = (stU, [], .ok) := by
  decide

/-- C3 (amended): rules 2 and 3 are both evaluated on a line, except that
when rule 2 matches a URL already in the table the entire line is skipped
and rule 3 is not evaluated on it; after a successful fresh fetch, rule 3
is still evaluated on the same line. -/
theorem c3_amended_thm (env : BEnv) (cfg : Cfg) (fuel : Nat) (st : BState)
    (fp line : Str) (rest : List Str) (url : Str)
    (hg : findGuard line = false) (hh : findHttpGet line = some url) :
    ((lookupMod url st.modules).isSome = true →
      run env cfg (fuel + 1) st fp (line :: rest) = run env cfg fuel st fp rest)
    ∧ (∀ content, lookupMod url st.modules = none →
        downloadHTTP env.fetch url = .ok content →
        run env cfg (fuel + 1) st fp (line :: rest) =
          stepAssemble (.fetch url)
            (run env cfg fuel ⟨(url, content) :: st.modules, url :: st.httpModules⟩
              url (splitLines content))
            (fun s => requireOnLine env cfg fuel s fp line rest)) := by
  constructor
  · intro hdup
    rw [run_cons]
    simp [hg, hh, hdup]
  · intro content hdup hdl
    rw [run_cons]
    simp [hg, hh, hdup, hdl]

/-- Witness for C3 (amended): both halves at concrete inputs. -/
theorem c3_witness :
    (run envAll cfgPlain 2 stU "base/main.lua".data [lineBoth] =
      run envAll cfgPlain 1 stU "base/main.lua".data [])
    ∧ (run envWeb cfgPlain 3 st0 "x.lua".data [lineBoth] =
        stepAssemble (.fetch "u".data)
          (run envWeb cfgPlain 2 ⟨[("u".data, "local y = 2".data)], ["u".data]⟩
            "u".data (splitLines "local y = 2".data))
          (fun s => requireOnLine envWeb cfgPlain 2 s "x.lua".data lineBoth [])) :=
  ⟨(c3_amended_thm envAll cfgPlain 1 stU "base/main.lua".data lineBoth [] "u".data
      (by decide) (by decide)).1 (by decide),
   (c3_amended_thm envWeb cfgPlain 2 st0 "x.lua".data lineBoth [] "u".data
      (by decide) (by decide)).2 "local y = 2".data (by decide) (by decide)⟩

/-- C4: in any bundling run starting from a table with distinct keys,
the trace of disk reads and network fetches contains each literal key at
most once, keys already present in the table are never read or fetched,
and the final table again has at most one record per key. -/
theorem c4_thm (env : BEnv) (cfg : Cfg) (fuel : Nat) (st : BState)
    (fp content : Str) (h : (st.modules.map Prod.fst).Nodup) :
    ((processFile env cfg fuel st fp content).2.1.map Ev.key).Nodup
    ∧ (∀ k, (lookupMod k st.modules).isSome →
        k ∉ (processFile env cfg fuel st fp content).2.1.map Ev.key)
    ∧ ((processFile env cfg fuel st fp content).1.modules.map Prod.fst).Nodup := by
  obtain ⟨hmono, habs, hnd, hpost, hnodup⟩ := inv_run env cfg fuel st fp (splitLines content)
  refine ⟨hnd, ?_, hnodup h⟩
  intro k hk hmem
  obtain ⟨e, he, hek⟩ := List.mem_map.mp hmem
  rw [← hek] at hk
  rw [habs e he] at hk
  simp at hk

/-- Witness for C4 at a concrete run (the circular A/B scenario, where
both literals `A` and `B` occur and each is read exactly once). -/
theorem c4_witness :
    ((processFile envCycle cfgPlain 10 st0 "base/A.lua".data
        "require(\"B\")".data).2.1.map Ev.key).Nodup
    ∧ (∀ k, (lookupMod k st0.modules).isSome →
        k ∉ (processFile envCycle cfgPlain 10 st0 "base/A.lua".data
          "require(\"B\")".data).2.1.map Ev.key)
    ∧ ((processFile envCycle cfgPlain 10 st0 "base/A.lua".data
        "require(\"B\")".data).1.modules.map Prod.fst).Nodup :=
  c4_thm envCycle cfgPlain 10 st0 "base/A.lua".data "require(\"B\")".data
    (by decide)

/-- C5: the circular dependency `A requires B`, `B requires A` terminates
(the run returns `.ok` without exhausting its fuel budget) and the final
table holds exactly one record for `A` and one for `B`; the trace shows
one read per module, and the key of each module is inserted before the
recursion into its text (which is why the cycle closes: the second
require of `B` finds it already stored). -/
theorem c5_thm :
    (processFile envCycle cfgPlain 10 st0 "base/A.lua".data
        "require(\"B\")".data).2.2 = .ok
    ∧ (processFile envCycle cfgPlain 10 st0 "base/A.lua".data
        "require(\"B\")".data).1.modules.map Prod.fst = ["A".data, "B".data]
    ∧ (processFile envCycle cfgPlain 10 st0 "base/A.lua".data
        "require(\"B\")".data).2.1 =
      [.read "B".data "base/B.lua".data, .read "A".data "base/A.lua".data] := by
  decide

/-- C6 (counterexample): `game` contains no dot and no slash, yet
`isLocalModule` classifies it External (its whole text matches a reserved
external prefix name). -/
theorem c6_counterexample :
    "game".data.contains '.' = false
    ∧ "game".data.contains '/' = false
    ∧ isLocalModule "game".data = false := by
  decide

/-- C6 (amended): a reference with no dot, no slash and no `::` that is
not itself one of the reserved external prefix names is classified
Local. -/
theorem c6_amended_thm (mp : Str) (hdot : mp.contains '.' = false)
    (_hslash : mp.contains '/' = false) (hns : goContains "::".data mp = false)
    (hpre : mp ∉ externalPrefixes) :
    isLocalModule mp = true := by
  unfold isLocalModule
  rw [hns, firstDotSegment_of_no_dot mp hdot, isReservedPrefix_eq_false hpre]
  simp
  exact Or.inr ((contains_false_iff mp '.').mp hdot)

/-- Witness for C6 (amended) at a concrete input. -/
theorem c6_witness : isLocalModule "helper".data = true :=
  c6_amended_thm "helper".data (by decide) (by decide) (by decide) (by decide)

/-- C7 (counterexample): HTTP status 204 is a 2xx status with a readable
body, yet `downloadHTTP` returns an error (the code accepts only status
200 exactly). -/
theorem c7_counterexample :
    (200 ≤ 204 ∧ 204 < 300)
    ∧ downloadHTTP fetch204 "u".data = .error (.status "u".data 204) := by
  decide

/-- C7 (amended): on a cache miss, `downloadHTTP` errors exactly on
transport failure, a status other than exactly 200, or a body-read
failure, and succeeds with the fetched text on a readable 200 response;
every error names the URL; and the outcome of the cache write-back is
swallowed — the result does not depend on it. -/
theorem c7_amended_thm (env : FetchEnv) (url : Str) (g : Str → Str → Bool)
    (hmiss : ∀ c, (if env.cacheEnabled then env.cacheGet url else .miss) ≠
      CacheGet.hit c) :
    downloadHTTP env url = downloadSpec env url
    ∧ (∀ e, downloadHTTP env url = .error e → DlErr.url e = url)
    ∧ downloadHTTP ⟨env.cacheEnabled, env.cacheGet, env.http, g⟩ url =
        downloadHTTP env url := by
  unfold downloadHTTP downloadSpec
  cases hc : (if env.cacheEnabled then env.cacheGet url else CacheGet.miss) with
  | hit c => exact absurd hc (hmiss c)
  | miss =>
    cases hh : env.http url with
    | transportErr => simp [DlErr.url]
    | resp status body =>
      by_cases hs : status = 200
      · subst hs
        cases body <;> simp [DlErr.url]
      · simp [hs, DlErr.url]
  | getErr =>
    cases hh : env.http url with
    | transportErr => simp [DlErr.url]
    | resp status body =>
      by_cases hs : status = 200
      · subst hs
        cases body <;> simp [DlErr.url]
      · simp [hs, DlErr.url]

/-- Witness for C7 (amended) at a concrete input. -/
theorem c7_witness :
    downloadHTTP fetchWeb "u".data = downloadSpec fetchWeb "u".data
    ∧ (∀ e, downloadHTTP fetchWeb "u".data = .error e → DlErr.url e = "u".data)
    ∧ downloadHTTP ⟨fetchWeb.cacheEnabled, fetchWeb.cacheGet, fetchWeb.http,
        fun _ _ => false⟩ "u".data = downloadHTTP fetchWeb "u".data :=
  c7_amended_thm fetchWeb "u".data (fun _ _ => false) (fun _ h => nomatch h)

/-- C8: a dot-separated reference with no slash and no `::` (and no quote
characters to strip) resolves by translating every dot to a path
separator, joining onto the base directory and appending `.lua` when
missing — independently of the current file's path. -/
theorem c8_thm (base cf cf' mp : Str)
    (hdot : mp.contains '.' = true) (hslash : mp.contains '/' = false)
    (hns : goContains "::".data mp = false)
    (hq : ∀ c ∈ mp, isQuoteChar c = false) :
    resolveModulePath base cf mp = addLuaExt (goJoin base (dotsToSlashes mp))
    ∧ resolveModulePath base cf mp = resolveModulePath base cf' mp := by
  have htrim : trimQuotes mp = mp := trimQuotes_eq_self mp hq
  have hpre : goHasPrefix "/".data mp = false := goHasPrefix_slash_false mp hslash
  unfold resolveModulePath
  rw [htrim, hpre, hdot, hslash, hns]
  simp

/-- Witness for C8 at the spec's own example `a.b.c`. -/
theorem c8_witness :
    (resolveModulePath "/base".data "/base/main.lua".data "a.b.c".data =
        addLuaExt (goJoin "/base".data (dotsToSlashes "a.b.c".data))
      ∧ resolveModulePath "/base".data "/base/main.lua".data "a.b.c".data =
        resolveModulePath "/base".data "/other/dir/file.lua".data "a.b.c".data)
    ∧ addLuaExt (goJoin "/base".data (dotsToSlashes "a.b.c".data)) =
        "/base/a/b/c.lua".data :=
  ⟨c8_thm "/base".data "/base/main.lua".data "/other/dir/file.lua".data
      "a.b.c".data (by decide) (by decide) (by decide) (by decide),
   by decide⟩

/-- C9: any line containing a word run, optional whitespace, `(`, a run
of non-`)` characters and then the fetch-pattern head
`loadstring ( game:HttpGet` is skipped entirely — the builder moves to
the remaining lines with the state unchanged and no events, performing no
fetch and extracting no require reference from it. -/
theorem c9_thm (env : BEnv) (cfg : Cfg) (fuel : Nat) (st : BState)
    (fp : Str) (rest : List Str) (pre w sp mid tail : Str) (c : Char)
    (hc : isWordChar c = true) (hw : ∀ x ∈ w, isWordChar x = true)
    (hsp : ∀ x ∈ sp, isSpaceChar x = true) (hmid : ∀ x ∈ mid, x ≠ ')')
    (ht : matchGuardTailAt tail = true) :
    run env cfg (fuel + 1) st fp
        ((pre ++ (c :: (w ++ (sp ++ ('(' :: (mid ++ tail)))))) :: rest) =
      run env cfg fuel st fp rest := by
  rw [run_cons]
  rw [findGuard_suffix pre _ (matchGuardAt_decomp c w sp mid tail hc hw hsp hmid ht)]
  rw [if_pos rfl]

/-- Witness for C9: a live (unquoted) nested fetch-and-execute call
inside an outer call is skipped. -/
theorem c9_witness :
    run envAll cfgPlain 2 st0 "base/main.lua".data
        ["foo(loadstring(game:HttpGet(\"u\"))())".data] =
      run envAll cfgPlain 1 st0 "base/main.lua".data [] :=
  c9_thm envAll cfgPlain 1 st0 "base/main.lua".data [] [] "oo".data [] []
    "loadstring(game:HttpGet(\"u\"))())".data 'f' (by decide) (by decide)
    (by decide) (by decide) (by decide)

/-- C10: after a fresh successful fetch the builder recurses into the
fetched text using the URL string as the current file path, and a
relative require literal inside that text is then resolved by joining it
onto `goDir url` — the directory component of the URL treated as a local
filesystem path. -/
theorem c10_thm (env : BEnv) (cfg : Cfg) (fuel : Nat) (st : BState)
    (fp line : Str) (rest : List Str) (url content mp : Str)
    (hg : findGuard line = false) (hh : findHttpGet line = some url)
    (hdup : lookupMod url st.modules = none)
    (hdl : downloadHTTP env.fetch url = .ok content) :
    run env cfg (fuel + 1) st fp (line :: rest) =
      stepAssemble (.fetch url)
        (run env cfg fuel ⟨(url, content) :: st.modules, url :: st.httpModules⟩
          url (splitLines content))
        (fun s => requireOnLine env cfg fuel s fp line rest)
    ∧ (goHasPrefix "/".data (trimQuotes mp) = false →
       ((trimQuotes mp).contains '.' && !(trimQuotes mp).contains '/'
          && !goContains "::".data (trimQuotes mp)) = false →
       resolveModulePath cfg.baseDir url mp =
         goClean (addLuaExt (goJoin (goDir url) (trimQuotes mp)))) := by
  constructor
  · rw [run_cons]
    simp [hg, hh, hdup, hdl]
  · intro h1 h2
    unfold resolveModulePath
    rw [h1, h2]
    simp

/-- Witness for C10: the remote module at `http://h/a/b.lua` requires
`./m`, which resolves against the URL's directory to `http:/h/a/m.lua`
(note the collapsed double slash from path cleaning). -/
theorem c10_witness :
    (run envWeb cfgPlain 4 st0 "main.lua".data [lineWeb] =
      stepAssemble (.fetch "http://h/a/b.lua".data)
        (run envWeb cfgPlain 3
          ⟨[("http://h/a/b.lua".data, "require(\"./m\")".data)],
           ["http://h/a/b.lua".data]⟩
          "http://h/a/b.lua".data (splitLines "require(\"./m\")".data))
        (fun s => requireOnLine envWeb cfgPlain 3 s "main.lua".data lineWeb []))
    ∧ resolveModulePath cfgPlain.baseDir "http://h/a/b.lua".data "./m".data =
        goClean (addLuaExt (goJoin (goDir "http://h/a/b.lua".data) "./m".data))
    ∧ goClean (addLuaExt (goJoin (goDir "http://h/a/b.lua".data) "./m".data)) =
        "http:/h/a/m.lua".data :=
  ⟨(c10_thm envWeb cfgPlain 3 st0 "main.lua".data lineWeb []
      "http://h/a/b.lua".data "require(\"./m\")".data "./m".data
      (by decide) (by decide) (by decide) (by decide)).1,
   (c10_thm envWeb cfgPlain 3 st0 "main.lua".data lineWeb []
      "http://h/a/b.lua".data "require(\"./m\")".data "./m".data
      (by decide) (by decide) (by decide) (by decide)).2 (by decide) (by decide),
   by decide⟩

end LuaBundler
